import Mathlib

/-!
Verification of the Assessment Orchestration Core of the MentalHealth
repository against its natural-language specification.

Each definition below is a shallow embedding of a Python function of the
repository (the source file and function are named in its doc comment).
Persistent state (SQLAlchemy rows) is modelled as explicit Lean data that
is threaded through the functions; randomness (random.choice,
random.shuffle) is modelled by explicit oracle parameters; fallible
operations are modelled with Except.
-/

namespace MentalHealth

/-! ## OrderBalancer: app/services/assessment_balance.py -/

/-- The two module orderings returned by the balancer
(the Python strings "phq_first" and "questions_first"). -/
inductive AssessmentOrder where
  | phq_first
  | questions_first
deriving DecidableEq, Repr

/-- Embedding of `random.choice(["phq_first", "questions_first"])`: the
coin oracle decides which of the two orderings is drawn. -/
def randomChoice (coin : Bool) : AssessmentOrder :=
  if coin then .phq_first else .questions_first

/-- `AssessmentBalanceService.get_next_assessment_order`
(app/services/assessment_balance.py, lines 10-35).
The historical count query is modelled by `countsResult`: `.ok (a, b)`
holds the counts of phq9-first and open-questions-first sessions, and
`.error ()` models the query raising (the Python `except` clause catches
every exception and falls back to a random choice).  Python float
division is modelled with exact rationals. -/
def get_next_assessment_order (countsResult : Except Unit (Nat × Nat))
    (coin : Bool) : AssessmentOrder :=
  match countsResult with
  | .error _ => randomChoice coin
  | .ok (phq9_first_count, open_questions_first_count) =>
    let total_assessments := phq9_first_count + open_questions_first_count
    if total_assessments = 0 then
      randomChoice coin
    else
      let phq9_ratio : ℚ := (phq9_first_count : ℚ) / (total_assessments : ℚ)
      if phq9_ratio > 55 / 100 then
        .questions_first
      else if phq9_ratio < 45 / 100 then
        .phq_first
      else
        randomChoice coin

/-! ## Scoring: app/services/phq.py and app/services/assesment.py -/

/-- One `PHQ9Response` row of a session, as read and written by
`PHQService.save_phq_response` and `calculate_phq_score`.  The
`created_at` timestamp is kept as an integer (seconds). -/
structure PHQ9Response where
  question_number : Nat
  question_index_in_category : Nat
  question_text : String
  response_value : Int
  response_time_ms : Option Int
  created_at : Int
deriving DecidableEq, Repr

/-- Sum of all response values of a session
(`sum(response.response_value for response in responses)`). -/
def totalScore (responses : List PHQ9Response) : Int :=
  (responses.map (fun r => r.response_value)).sum

/-- The severity ladder of `PHQService.calculate_phq_score`
(app/services/phq.py, lines 190-199). -/
def severityFor (total_score : Int) : String :=
  if total_score ≥ 20 then "severe"
  else if total_score ≥ 15 then "moderately_severe"
  else if total_score ≥ 10 then "moderate"
  else if total_score ≥ 5 then "mild"
  else "minimal"

/-- The severity ladder of `AssessmentService.complete_phq9_assessment`
(app/services/assesment.py, lines 112-122).  Note that this duplicate of
the ladder maps `>= 15` to "moderate" and both `>= 10` and `>= 5` to
"mild". -/
def completePhq9SeverityFor (total_score : Int) : String :=
  if total_score ≥ 20 then "severe"
  else if total_score ≥ 15 then "moderate"
  else if total_score ≥ 10 then "mild"
  else if total_score ≥ 5 then "mild"
  else "minimal"

/-- The observable outcome of `PHQService.calculate_phq_score`: the
total and severity placed in the returned results dict, and the
`phq9_score` / `phq9_severity` values left on the Assessment row when
the surrounding `db.session.commit()` runs. -/
structure ScoreOutcome where
  returned_total : Int
  returned_severity : String
  persisted_score : Int
  persisted_severity : String
deriving DecidableEq, Repr

/-- `PHQService.calculate_phq_score` (app/services/phq.py, lines
158-233) restricted to its score/severity effect.  The function first
computes `total_score` and `severity` and assigns them to the
Assessment row, then calls
`AssessmentService.complete_phq9_assessment` (app/services/assesment.py,
lines 99-127), which re-queries the same row, recomputes the total over
the same responses, and assigns its own severity ladder to the row,
overwriting the values just written; only then does
`calculate_phq_score` commit.  The results dict is built from the local
variables, so the returned severity uses the first ladder while the
persisted severity uses the second. -/
def calculate_phq_score (responses : List PHQ9Response) : ScoreOutcome :=
  let total_score := totalScore responses
  let severity := severityFor total_score
  let completed_total := totalScore responses
  let completed_severity := completePhq9SeverityFor completed_total
  { returned_total := total_score
    returned_severity := severity
    persisted_score := completed_total
    persisted_severity := completed_severity }

/-! ## Response saving: app/services/phq.py -/

/-- Python `int(s)` applied to a client form string: surrounding
whitespace is stripped and an optionally signed decimal literal is
accepted; any other string raises ValueError, modelled by `none`. -/
def pyParseInt (s : String) : Option Int :=
  (s.trim).toInt?

/-- The `if response_timestamp:` truthiness guard followed by
`int(response_timestamp)` in `save_phq_response`: an absent field
(None) and the empty string are falsy, and a ValueError from `int` is
caught and ignored, so the result is `none` exactly when the stored
timestamp must be left alone. -/
def parseClientTimestamp (response_timestamp : Option String) : Option Int :=
  match response_timestamp with
  | none => none
  | some s => if s = "" then none else pyParseInt s

/-- `datetime.fromtimestamp(int(ts) / 1000)`, kept at second
granularity on the integer time axis of this model. -/
def timestampFromMillis (n : Int) : Int :=
  n / 1000

/-- The natural key of the `PHQ9Response.query.filter_by` lookup in
`save_phq_response`: same category number and same in-category index. -/
def responseKeyMatches (r : PHQ9Response) (category_number idx : Nat) : Bool :=
  r.question_number == category_number && r.question_index_in_category == idx

/-- `PHQService.save_phq_response` (app/services/phq.py, lines
105-155), acting on the list of `PHQ9Response` rows of one assessment
(the enclosing assessment lookup raises before this code runs when the
session does not exist, leaving the rows unchanged).  The first row
matching `(category_number, question_index_in_category or 0)` is
updated in place - value, latency and question text always, the
timestamp only when the client timestamp parses - and when no row
matches, one fresh row is inserted.  `now` is the database default for
`created_at`. -/
def save_phq_response (rows : List PHQ9Response) (category_number : Nat)
    (response_value : Int) (question_text : String)
    (response_time_ms : Option Int) (response_timestamp : Option String)
    (question_index_in_category : Option Nat) (now : Int) : List PHQ9Response :=
  match rows with
  | [] =>
    [{ question_number := category_number
       question_index_in_category := question_index_in_category.getD 0
       question_text := question_text
       response_value := response_value
       response_time_ms := response_time_ms
       created_at :=
         match parseClientTimestamp response_timestamp with
         | some n => timestampFromMillis n
         | none => now }]
  | r :: rest =>
    if responseKeyMatches r category_number (question_index_in_category.getD 0) then
      { r with
        response_value := response_value
        response_time_ms := response_time_ms
        question_text := question_text
        created_at :=
          match parseClientTimestamp response_timestamp with
          | some n => timestampFromMillis n
          | none => r.created_at } :: rest
    else
      r :: save_phq_response rest category_number response_value question_text
        response_time_ms response_timestamp question_index_in_category now

/-- Number of rows of the session holding the given natural key. -/
def countKey (rows : List PHQ9Response) (cat idx : Nat) : Nat :=
  (rows.filter (fun r => responseKeyMatches r cat idx)).length

/-- The first row of the session holding the given natural key, as
found by the `filter_by(...).first()` query. -/
def rowAtKey (rows : List PHQ9Response) (cat idx : Nat) : Option PHQ9Response :=
  rows.find? (fun r => responseKeyMatches r cat idx)

/-- One structured-response submission as received by the
`phq9-submit` route: the payload fields of `save_phq_response` other
than the key. -/
structure PHQSubmission where
  response_value : Int
  question_text : String
  response_time_ms : Option Int
  response_timestamp : Option String
  now : Int
deriving Repr

/-- Folding a sequence of submissions for one fixed key through
`save_phq_response`. -/
def saveAll (rows : List PHQ9Response) (cat : Nat) (idx? : Option Nat)
    (subs : List PHQSubmission) : List PHQ9Response :=
  subs.foldl
    (fun rs s =>
      save_phq_response rs cat s.response_value s.question_text
        s.response_time_ms s.response_timestamp idx? s.now)
    rows

/-! ## Question pool construction: app/services/phq.py get_phq_settings -/

/-- The default whitespace set of Python `str.strip`. -/
def pyIsSpace (c : Char) : Bool :=
  c == ' ' || c == '\t' || c == '\n' || c == '\r' ||
    c == Char.ofNat 11 || c == Char.ofNat 12

/-- Python `str.strip()` on the character list of a string: drop
whitespace from the front, then from the back. -/
def stripChars (cs : List Char) : List Char :=
  List.rdropWhile pyIsSpace (cs.dropWhile pyIsSpace)

/-- Python `str.strip()`. -/
def pyStrip (s : String) : String :=
  String.mk (stripChars s.data)

/-- Python `str.split(",")` on the character list: cut at every comma,
never merging adjacent separators (so `",".split(",")` has two empty
pieces). -/
def splitCommaChars : List Char → List Char → List (List Char)
  | [], acc => [acc.reverse]
  | c :: cs, acc =>
    if c = ',' then acc.reverse :: splitCommaChars cs []
    else splitCommaChars cs (c :: acc)

/-- Python `str.split(",")`. -/
def pySplitComma (s : String) : List String :=
  (splitCommaChars s.data []).map (fun cs => String.mk cs)

/-- What `json.loads` does on a stored question-list value, treated as
an oracle for the standard-library JSON decoder: a JSON list (whose
items the code uses as the question strings), some other valid JSON
value (`isinstance(questions, list)` is false), or a raised
JSONDecodeError. -/
inductive JsonOutcome where
  | jsonList (qs : List String)
  | jsonOther
  | decodeFailure
deriving DecidableEq, Repr

/-- A raw `phq_category_<n>_questions` setting value: the stored
string together with the outcome of `json.loads` on it. -/
structure RawQuestionsValue where
  raw : String
  parsed : JsonOutcome
deriving DecidableEq, Repr

/-- Lines 45-53 of `get_phq_settings` (app/services/phq.py): decode the
stored value; a decoded non-list means the raw value is kept as one
single-string question; a decode error falls back to a comma-separated
parse whose pieces are stripped and blank pieces dropped; finally blank
questions are filtered out of whichever list resulted. -/
def parse_questions (v : RawQuestionsValue) : List String :=
  let questions :=
    match v.parsed with
    | .jsonList qs => qs
    | .jsonOther => [v.raw]
    | .decodeFailure =>
      ((pySplitComma v.raw).map pyStrip).filter (fun q => q ≠ "")
  questions.filter (fun q => pyStrip q ≠ "")

/-- Modelled from the spec wording of the malformed-question-list
fallback, for comparison with `parse_questions`: on any malformed value
first try the comma-separated parse, then (if that yields nothing) the
whole raw value as a single string, and give up only when both fail. -/
def specFallbackQuestions (v : RawQuestionsValue) : List String :=
  match v.parsed with
  | .jsonList qs => qs.filter (fun q => pyStrip q ≠ "")
  | _ =>
    let commaQs := ((pySplitComma v.raw).map pyStrip).filter (fun q => q ≠ "")
    if commaQs ≠ [] then commaQs
    else if pyStrip v.raw ≠ "" then [v.raw] else []

/-- One entry of the materialized question pool (one dict appended to
`all_questions` in `get_phq_settings`). -/
structure PoolEntry where
  category : Nat
  category_name : String
  question : String
  original_order : Nat
  question_index_in_category : Nat
  total_questions_in_category : Nat
  all_questions : List String
deriving DecidableEq, Repr

/-- The stored settings of one PHQ category slot: the raw
`phq_category_<n>_exists` value (enabled when it is the string "1"),
the resolved category name, and the raw questions value. -/
structure PHQCategorySettings where
  exists_flag : String
  name : String
  questions_data : RawQuestionsValue

/-- The configuration read by `get_phq_settings`: the twenty category
slots and the global randomize flag. -/
structure PHQPoolConfig where
  category : Nat → PHQCategorySettings
  randomize_questions : Bool

/-- The loop body of `get_phq_settings` for one `cat_num`: no entries
unless the category exists-flag is "1" and the raw questions value is
truthy; otherwise one pool entry per parsed question string, indexed by
position within the category. -/
def category_block (cfg : PHQPoolConfig) (cat_num : Nat) : List PoolEntry :=
  let c := cfg.category cat_num
  if c.exists_flag = "1" then
    if c.questions_data.raw = "" then []
    else
      let questions := parse_questions c.questions_data
      questions.enum.map (fun p =>
        { category := cat_num
          category_name := c.name
          question := p.2
          original_order := cat_num
          question_index_in_category := p.1
          total_questions_in_category := questions.length
          all_questions := questions })
  else []

/-- The `for cat_num in range(1, 21)` loop of `get_phq_settings`: the
pool before the optional shuffle, in category-number order with
in-category order inside each block. -/
def build_pool (cfg : PHQPoolConfig) : List PoolEntry :=
  (List.range' 1 20).flatMap (fun cat_num => category_block cfg cat_num)

/-- Lines 71-76 of `get_phq_settings`: `random.shuffle(all_questions)`
is applied to the whole final pool exactly when the randomize flag is
set.  The shuffle itself is an oracle parameter (a permutation drawn by
`random.shuffle`). -/
def get_phq_settings_questions (cfg : PHQPoolConfig)
    (shuffle : List PoolEntry → List PoolEntry) : List PoolEntry :=
  if cfg.randomize_questions then shuffle (build_pool cfg) else build_pool cfg

/-- Category-number-then-in-category-index order on pool entries. -/
def poolLex (a b : PoolEntry) : Prop :=
  a.category < b.category ∨
    (a.category = b.category ∧
      a.question_index_in_category < b.question_index_in_category)

instance (a b : PoolEntry) : Decidable (poolLex a b) := by
  unfold poolLex
  infer_instance

/-- A concrete configuration used to instantiate the pool theorems:
category slot 2 enabled with three questions, every other slot
disabled. -/
def sampleCategory (n : Nat) : PHQCategorySettings :=
  if n = 2 then
    { exists_flag := "1"
      name := "Sample"
      questions_data := ⟨"[\"a\", \"b\", \"c\"]", .jsonList ["a", "b", "c"]⟩ }
  else
    { exists_flag := ""
      name := "unused"
      questions_data := ⟨"", .decodeFailure⟩ }

/-- Concrete pool configuration with randomization off. -/
def sampleCfg : PHQPoolConfig :=
  { category := sampleCategory, randomize_questions := false }

/-! ## Conversational context: app/services/openai_chat.py,
app/services/chat_session_manager.py -/

/-- The role tag of a stored history entry (the "type" field of the
dicts kept in message_history). -/
inductive MsgType where
  | system
  | human
  | ai
deriving DecidableEq, Repr

/-- One entry of the serializable message_history of a chat session. -/
structure ChatMsg where
  type : MsgType
  content : String
deriving DecidableEq, Repr

/-- One role-tagged message handed to the completion provider
(SystemMessage / HumanMessage / AIMessage). -/
inductive LCMessage where
  | systemMessage (content : String)
  | humanMessage (content : String)
  | aiMessage (content : String)
deriving DecidableEq, Repr

/-- The serializable chat session state built by
`OpenAIChatService.create_chat_session` and threaded through the Flask
session, restricted to the fields the context-reconstruction logic
reads (the parallel conversation_history, which duplicates
message_history with timestamps, and the static settings snapshot are
omitted). -/
structure ChatSession where
  system_prompt : String
  message_history : List ChatMsg
  exchange_count : Nat
deriving DecidableEq, Repr

/-- `create_chat_session` (app/services/openai_chat.py, lines 84-133)
restricted to the modelled fields: the configuration snapshot of the
system prompt, a message history seeded with one system entry, and a
zero exchange count. -/
def create_chat_session (system_prompt : String) : ChatSession :=
  { system_prompt := system_prompt
    message_history := [{ type := .system, content := system_prompt }]
    exchange_count := 0 }

/-- `ChatSessionManager.update_session`
(app/services/chat_session_manager.py, lines 32-59): one completed
subject-agent exchange appends the human entry then the ai entry to the
history and increments exchange_count once.  The `chat_stream` route
(app/routes/patient.py, lines 489-531) performs the same appends and
increment around the streamed generation. -/
def update_session (cs : ChatSession) (user_message ai_response : String) :
    ChatSession :=
  { cs with
    message_history := cs.message_history ++
      [{ type := .human, content := user_message },
       { type := .ai, content := ai_response }]
    exchange_count := cs.exchange_count + 1 }

/-- A conversation of n completed exchanges applied to a session. -/
def applyExchanges (cs : ChatSession) (exs : List (String × String)) :
    ChatSession :=
  exs.foldl (fun s e => update_session s e.1 e.2) cs

/-- `generate_streaming_response` (app/services/openai_chat.py, lines
172-194) up to the provider call: the message list is rebuilt from
scratch on every request - the stored system prompt first (raising when
it is empty), then every stored human/ai history entry in order (system
entries are skipped: the prompt is added separately), then the new
subject turn. -/
def generate_streaming_response_messages (chat_session : ChatSession)
    (user_message : String) : Except String (List LCMessage) :=
  if chat_session.system_prompt = "" then
    .error "no system prompt"
  else
    .ok (LCMessage.systemMessage chat_session.system_prompt ::
      (chat_session.message_history.filterMap (fun m =>
        match m.type with
        | .human => some (.humanMessage m.content)
        | .ai => some (.aiMessage m.content)
        | .system => none) ++ [LCMessage.humanMessage user_message]))

/-- Whether a provider message is the system entry. -/
def isSystemMessage (m : LCMessage) : Bool :=
  match m with
  | .systemMessage _ => true
  | _ => false

/-- Modelled from the spec (section 4.3): the continuation policy of
the conversational module.  The Python sources under src only maintain
exchange_count (`update_session` increments it once per completed pair
and `chat_stream` reports it to the client after every exchange); the
comparison against the configured cap and the closing message are
produced client-side in the templates, which are not part of the Python
sources, so the decision itself is modelled from the spec: below the
cap continuation is unconditional, at or above the cap the module ends
with a closing message. -/
structure ContinueDecision where
  can_continue : Bool
  closing_message : Option String
deriving DecidableEq, Repr

/-- Modelled from the spec: `continue_policy` compares the running
exchange count against the configured cap and nothing else. -/
def continue_policy (exchange_count cap : Nat) (closing : String) :
    ContinueDecision :=
  if exchange_count ≥ cap then
    { can_continue := false, closing_message := some closing }
  else
    { can_continue := true, closing_message := none }

/-! ## Media artifacts: app/services/emotion_storage.py -/

/-- One `EmotionData` database row, restricted to the fields the
save/validate logic reads. -/
structure EmotionData where
  assessment_id : Nat
  assessment_type : String
  question_identifier : String
  media_type : String
  file_path : String
  file_size : Nat
deriving DecidableEq, Repr

/-- The two stores `save_video` touches: the blob storage (paths whose
bytes were written) and the database rows. -/
structure MediaStore where
  files : List String
  records : List EmotionData
deriving DecidableEq, Repr

/-- `EmotionStorageService.save_video` raises ValueError when the
upload exceeds `max_file_size_mb = 50`. -/
def maxFileSizeBytes : Nat := 50 * 1024 * 1024

/-- `EmotionStorageService.get_storage_path`
(app/services/emotion_storage.py, lines 33-36): the deterministic
storage location under the base directory, from the date, user,
assessment type and session. -/
def get_storage_path (user_id : Nat) (session_id assessment_type
    date_path : String) : String :=
  "./uploads/" ++ date_path ++ "/user_" ++ toString user_id ++ "/" ++
    assessment_type ++ "/session_" ++ session_id

/-- `EmotionStorageService.save_video`
(app/services/emotion_storage.py, lines 38-111).  `assessment` is the
looked-up Assessment id (none when the query finds no row);
`timestamp_str` is the strftime-formatted filename timestamp;
`writeOk` is the outcome of the `open(file_path, "wb")` write.  Every
raised exception reaches the except clause, which rolls the database
session back and re-raises, so `.error` leaves both stores exactly as
the caller held them; the database record is created only on the
success path, after the bytes hit the blob store. -/
def save_video (st : MediaStore) (assessment : Option Nat)
    (session_id : String) (user_id : Nat)
    (assessment_type question_identifier : String) (video_size : Nat)
    (date_path timestamp_str : String) (writeOk : Bool) :
    Except Unit MediaStore :=
  if video_size > maxFileSizeBytes then
    .error ()
  else
    match assessment with
    | none => .error ()
    | some assessment_id =>
      let file_path := get_storage_path user_id session_id assessment_type
        date_path ++ "/video_" ++ timestamp_str ++ ".webm"
      if writeOk then
        .ok { files := file_path :: st.files
              records :=
                { assessment_id := assessment_id
                  assessment_type := assessment_type
                  question_identifier := question_identifier
                  media_type := "video"
                  file_path := file_path
                  file_size := video_size } :: st.records }
      else
        .error ()

/-! ## Session lifecycle: app/routes/patient.py -/

/-- One Assessment row restricted to the lifecycle fields: statuses are
"in_progress", "completed" and "abandoned". -/
structure SessionRow where
  session_id : String
  user_id : Nat
  status : String
deriving DecidableEq, Repr

/-- The `filter_by(session_id=..., user_id=..., status="in_progress")`
key of the discard lookup in `start_fresh_assessment`. -/
def matchesDiscard (r : SessionRow) (sid : String) (uid : Nat) : Bool :=
  r.session_id == sid && r.user_id == uid && r.status == "in_progress"

/-- The `.first()` update of `start_fresh_assessment`: mark the first
row matching the discard key as abandoned, leave everything else. -/
def markAbandonedFirst (sessions : List SessionRow) (sid : String)
    (uid : Nat) : List SessionRow :=
  match sessions with
  | [] => []
  | r :: rest =>
    if matchesDiscard r sid uid then
      { r with status := "abandoned" } :: rest
    else
      r :: markAbandonedFirst rest sid uid

/-- `start_fresh_assessment` (app/routes/patient.py, lines 100-138):
when a truthy discard_session_id is posted, the single matching
in-progress session of this user is marked abandoned (and its media
cleaned up); then a fresh in-progress session is created
unconditionally. -/
def start_fresh_assessment (sessions : List SessionRow) (user_id : Nat)
    (discard_session_id : Option String) (new_session_id : String) :
    List SessionRow :=
  let sessions1 :=
    match discard_session_id with
    | some sid =>
      if sid = "" then sessions else markAbandonedFirst sessions sid user_id
    | none => sessions
  sessions1 ++ [{ session_id := new_session_id, user_id := user_id,
                  status := "in_progress" }]

/-- `start_assessment` (app/routes/patient.py, lines 67-97): when the
user still has an in-progress session, the resume modal is shown and no
session is created (the Bool result is false); otherwise a fresh
session is created. -/
def start_assessment (sessions : List SessionRow) (user_id : Nat)
    (new_session_id : String) : List SessionRow × Bool :=
  if sessions.any (fun s => s.user_id == user_id && s.status == "in_progress") then
    (sessions, false)
  else
    (sessions ++ [{ session_id := new_session_id, user_id := user_id,
                    status := "in_progress" }], true)

/-- Number of non-terminal (in-progress) sessions of one subject. -/
def nonTerminalCount (sessions : List SessionRow) (uid : Nat) : Nat :=
  (sessions.filter (fun s => s.user_id == uid && s.status == "in_progress")).length

end MentalHealth

namespace MentalHealth

/-! ## Helper lemmas about Python strip -/

theorem dropWhile_stripChars (cs : List Char) :
    (stripChars cs).dropWhile pyIsSpace = stripChars cs := by
  unfold stripChars
  have hdecomp : List.rdropWhile pyIsSpace (cs.dropWhile pyIsSpace) ++
      ((cs.dropWhile pyIsSpace).reverse.takeWhile pyIsSpace).reverse =
      cs.dropWhile pyIsSpace := by
    rw [List.rdropWhile, ← List.reverse_append,
      List.takeWhile_append_dropWhile, List.reverse_reverse]
  cases hb : List.rdropWhile pyIsSpace (cs.dropWhile pyIsSpace) with
  | nil => simp
  | cons c t =>
    rw [hb] at hdecomp
    have ha : cs.dropWhile pyIsSpace =
        c :: (t ++ ((cs.dropWhile pyIsSpace).reverse.takeWhile pyIsSpace).reverse) :=
      hdecomp.symm
    have hlen : 0 < (cs.dropWhile pyIsSpace).length := by
      rw [ha]
      simp
    have hnp : ¬ pyIsSpace c = true := by
      have h0 := List.dropWhile_get_zero_not pyIsSpace cs hlen
      have hc : (cs.dropWhile pyIsSpace).get ⟨0, hlen⟩ = c := by
        have hg := List.get_of_eq ha ⟨0, hlen⟩
        simpa using hg
      rwa [hc] at h0
    rw [List.dropWhile_cons, if_neg hnp]

theorem stripChars_idem (cs : List Char) :
    stripChars (stripChars cs) = stripChars cs := by
  conv in stripChars (stripChars cs) => rw [stripChars]
  rw [dropWhile_stripChars, stripChars, List.rdropWhile_idempotent]

theorem pyStrip_idem (s : String) : pyStrip (pyStrip s) = pyStrip s := by
  unfold pyStrip
  rw [show (String.mk (stripChars s.data)).data = stripChars s.data from rfl,
    stripChars_idem]

/-! ## Helper lemmas about the question pool -/

theorem category_block_category (cfg : PHQPoolConfig) (n : Nat) :
    ∀ e ∈ category_block cfg n, e.category = n := by
  intro e he
  simp only [category_block] at he
  split at he
  · split at he
    · simp at he
    · obtain ⟨p, _, rfl⟩ := List.mem_map.mp he
      rfl
  · simp at he

theorem filter_category_flatMap_not_mem (cfg : PHQPoolConfig) (c : Nat) :
    ∀ l : List Nat, c ∉ l →
      ((l.flatMap (fun n => category_block cfg n)).filter
        (fun e => e.category == c)) = [] := by
  intro l
  induction l with
  | nil => intro _; simp
  | cons n t ih =>
    intro hc
    simp only [List.flatMap_cons, List.filter_append]
    rw [ih (fun h => hc (List.mem_cons_of_mem n h))]
    have hn : n ≠ c := fun h => hc (h ▸ List.mem_cons_self n t)
    have hblock : (category_block cfg n).filter (fun e => e.category == c) = [] := by
      rw [List.filter_eq_nil_iff]
      intro e he
      have := category_block_category cfg n e he
      simp [this, hn]
    rw [hblock, List.append_nil]

theorem filter_category_flatMap (cfg : PHQPoolConfig) (c : Nat) :
    ∀ l : List Nat, l.Nodup → c ∈ l →
      ((l.flatMap (fun n => category_block cfg n)).filter
        (fun e => e.category == c)) = category_block cfg c := by
  intro l
  induction l with
  | nil => intro _ h; simp at h
  | cons n t ih =>
    intro hnd hc
    simp only [List.flatMap_cons, List.filter_append]
    rcases List.mem_cons.mp hc with rfl | hct
    · have hcnot : c ∉ t := (List.nodup_cons.mp hnd).1
      rw [filter_category_flatMap_not_mem cfg c t hcnot, List.append_nil]
      apply List.filter_eq_self.mpr
      intro e he
      simp [category_block_category cfg c e he]
    · have hn : n ≠ c := by
        rintro rfl
        exact (List.nodup_cons.mp hnd).1 hct
      have hblock : (category_block cfg n).filter (fun e => e.category == c) = [] := by
        rw [List.filter_eq_nil_iff]
        intro e he
        have := category_block_category cfg n e he
        simp [this, hn]
      rw [hblock, List.nil_append]
      exact ih (List.nodup_cons.mp hnd).2 hct

theorem pairwise_fst_lt_enumFrom {α : Type _} :
    ∀ (n : Nat) (l : List α), (l.enumFrom n).Pairwise (fun a b => a.1 < b.1) := by
  intro n l
  induction l generalizing n with
  | nil => simp
  | cons x xs ih =>
    rw [List.enumFrom_cons]
    refine List.Pairwise.cons ?_ (ih (n + 1))
    intro p hp
    obtain ⟨i, y⟩ := p
    have hle := (List.mk_mem_enumFrom_iff_le_and_getElem?_sub.mp hp).1
    simpa using hle

theorem category_block_pairwise (cfg : PHQPoolConfig) (n : Nat) :
    (category_block cfg n).Pairwise poolLex := by
  simp only [category_block]
  split
  · split
    · simp
    · rw [List.pairwise_map]
      have h := pairwise_fst_lt_enumFrom 0
        (parse_questions (cfg.category n).questions_data)
      exact h.imp (fun hlt => Or.inr ⟨rfl, hlt⟩)
  · simp

theorem build_pool_pairwise (cfg : PHQPoolConfig) :
    (build_pool cfg).Pairwise poolLex := by
  simp only [build_pool, List.flatMap]
  rw [List.pairwise_flatten]
  constructor
  · intro l' hl'
    obtain ⟨n, _, rfl⟩ := List.mem_map.mp hl'
    exact category_block_pairwise cfg n
  · rw [List.pairwise_map]
    refine (List.pairwise_lt_range' 1 20).imp ?_
    intro a b hab x hx y hy
    left
    rw [category_block_category cfg a x hx, category_block_category cfg b y hy]
    exact hab

/-! ## Helper lemmas about save_phq_response -/

theorem countKey_save (rows : List PHQ9Response) (cat : Nat) (v : Int)
    (txt : String) (lat : Option Int) (ts : Option String)
    (idx? : Option Nat) (now : Int) :
    countKey (save_phq_response rows cat v txt lat ts idx? now) cat (idx?.getD 0) =
      max (countKey rows cat (idx?.getD 0)) 1 := by
  induction rows with
  | nil =>
    simp [save_phq_response, countKey, responseKeyMatches]
  | cons r rest ih =>
    cases hb : responseKeyMatches r cat (idx?.getD 0) with
    | false =>
      simp only [save_phq_response, hb, Bool.false_eq_true, if_false]
      simp only [countKey, List.filter_cons, hb] at ih ⊢
      simpa using ih
    | true =>
      have hkey : responseKeyMatches
          { r with
            response_value := v
            response_time_ms := lat
            question_text := txt
            created_at :=
              match parseClientTimestamp ts with
              | some n => timestampFromMillis n
              | none => r.created_at } cat (idx?.getD 0) = true := by
        simpa [responseKeyMatches] using hb
      simp only [save_phq_response, hb, if_true, countKey, List.filter_cons, hkey]
      simp only [List.length_cons]
      omega

theorem rowAtKey_save (rows : List PHQ9Response) (cat : Nat) (v : Int)
    (txt : String) (lat : Option Int) (ts : Option String)
    (idx? : Option Nat) (now : Int) :
    rowAtKey (save_phq_response rows cat v txt lat ts idx? now) cat (idx?.getD 0) =
      some (match rowAtKey rows cat (idx?.getD 0) with
        | none =>
          { question_number := cat
            question_index_in_category := idx?.getD 0
            question_text := txt
            response_value := v
            response_time_ms := lat
            created_at :=
              match parseClientTimestamp ts with
              | some n => timestampFromMillis n
              | none => now }
        | some r =>
          { r with
            response_value := v
            response_time_ms := lat
            question_text := txt
            created_at :=
              match parseClientTimestamp ts with
              | some n => timestampFromMillis n
              | none => r.created_at }) := by
  induction rows with
  | nil =>
    simp [save_phq_response, rowAtKey, responseKeyMatches]
  | cons r rest ih =>
    cases hb : responseKeyMatches r cat (idx?.getD 0) with
    | false =>
      simp only [save_phq_response, hb, Bool.false_eq_true, if_false]
      simp only [rowAtKey, List.find?_cons, hb] at ih ⊢
      simpa using ih
    | true =>
      have hkey : responseKeyMatches
          { r with
            response_value := v
            response_time_ms := lat
            question_text := txt
            created_at :=
              match parseClientTimestamp ts with
              | some n => timestampFromMillis n
              | none => r.created_at } cat (idx?.getD 0) = true := by
        simpa [responseKeyMatches] using hb
      simp only [save_phq_response, hb, if_true]
      simp only [rowAtKey, List.find?_cons, hb, hkey]

theorem countKey_saveAll (cat idx : Nat) (subs : List PHQSubmission) :
    ∀ rows : List PHQ9Response, subs ≠ [] →
      countKey (saveAll rows cat (some idx) subs) cat idx =
        max (countKey rows cat idx) 1 := by
  induction subs with
  | nil => intro rows h; exact absurd rfl h
  | cons s rest ih =>
    intro rows _
    have hstep := countKey_save rows cat s.response_value s.question_text
      s.response_time_ms s.response_timestamp (some idx) s.now
    simp only [Option.getD_some] at hstep
    by_cases hr : rest = []
    · subst hr
      simpa [saveAll] using hstep
    · have hrec := ih (save_phq_response rows cat s.response_value
        s.question_text s.response_time_ms s.response_timestamp (some idx)
        s.now) hr
      have hfold : saveAll rows cat (some idx) (s :: rest) =
          saveAll (save_phq_response rows cat s.response_value s.question_text
            s.response_time_ms s.response_timestamp (some idx) s.now)
            cat (some idx) rest := by
        simp [saveAll]
      rw [hfold, hrec, hstep]
      omega

theorem rowAtKey_saveAll_last (cat idx : Nat) (subs : List PHQSubmission)
    (s : PHQSubmission) (rows : List PHQ9Response) :
    (rowAtKey (saveAll rows cat (some idx) (subs ++ [s])) cat idx).map
        (fun r => (r.response_value, r.question_text, r.response_time_ms)) =
      some (s.response_value, s.question_text, s.response_time_ms) := by
  have hsplit : saveAll rows cat (some idx) (subs ++ [s]) =
      save_phq_response (saveAll rows cat (some idx) subs) cat
        s.response_value s.question_text s.response_time_ms
        s.response_timestamp (some idx) s.now := by
    simp [saveAll]
  rw [hsplit]
  have hlast := rowAtKey_save (saveAll rows cat (some idx) subs) cat
    s.response_value s.question_text s.response_time_ms s.response_timestamp
    (some idx) s.now
  simp only [Option.getD_some] at hlast
  rw [hlast]
  cases rowAtKey (saveAll rows cat (some idx) subs) cat idx <;> simp

/-! ## Helper lemmas about the conversational context -/

theorem applyExchanges_spec (exs : List (String × String)) :
    ∀ cs : ChatSession,
      (applyExchanges cs exs).system_prompt = cs.system_prompt ∧
      (applyExchanges cs exs).message_history =
        cs.message_history ++ exs.flatMap
          (fun e => [{ type := .human, content := e.1 },
                     { type := .ai, content := e.2 }]) ∧
      (applyExchanges cs exs).exchange_count =
        cs.exchange_count + exs.length := by
  induction exs with
  | nil => intro cs; simp [applyExchanges]
  | cons e t ih =>
    intro cs
    have hstep : applyExchanges cs (e :: t) =
        applyExchanges (update_session cs e.1 e.2) t := rfl
    have h := ih (update_session cs e.1 e.2)
    refine ⟨?_, ?_, ?_⟩
    · rw [hstep, h.1]
      rfl
    · rw [hstep, h.2.1]
      simp [update_session, List.flatMap_cons]
    · rw [hstep, h.2.2]
      simp [update_session]
      omega

theorem filterMap_exchange_pairs (exs : List (String × String)) :
    (exs.flatMap (fun e => [({ type := .human, content := e.1 } : ChatMsg),
        { type := .ai, content := e.2 }])).filterMap (fun m =>
      match m.type with
      | .human => some (LCMessage.humanMessage m.content)
      | .ai => some (.aiMessage m.content)
      | .system => none) =
    exs.flatMap (fun e => [LCMessage.humanMessage e.1,
      LCMessage.aiMessage e.2]) := by
  induction exs with
  | nil => rfl
  | cons e t ih =>
    simp only [List.flatMap_cons, List.filterMap_append, ih]
    rfl

theorem length_exchange_pairs (exs : List (String × String)) :
    (exs.flatMap (fun e => [LCMessage.humanMessage e.1,
      LCMessage.aiMessage e.2])).length = 2 * exs.length := by
  induction exs with
  | nil => rfl
  | cons e t ih =>
    simp only [List.flatMap_cons, List.length_append, List.length_cons, ih]
    simp
    omega

theorem countP_system_exchange_pairs (exs : List (String × String)) :
    (exs.flatMap (fun e => [LCMessage.humanMessage e.1,
      LCMessage.aiMessage e.2])).countP isSystemMessage = 0 := by
  induction exs with
  | nil => rfl
  | cons e t ih =>
    simp only [List.flatMap_cons, List.countP_append, ih]
    rfl

/-! ## Helper lemmas about the session lifecycle -/

theorem markAbandonedFirst_of_find?_none (sid : String) (uid : Nat) :
    ∀ sessions : List SessionRow,
      sessions.find? (fun r => matchesDiscard r sid uid) = none →
      markAbandonedFirst sessions sid uid = sessions := by
  intro sessions
  induction sessions with
  | nil => intro _; rfl
  | cons a rest ih =>
    intro h
    cases hb : matchesDiscard a sid uid with
    | false =>
      simp only [List.find?_cons, hb] at h
      simp [markAbandonedFirst, hb, ih h]
    | true =>
      simp only [List.find?_cons, hb] at h
      simp at h

theorem markAbandonedFirst_of_find?_some (sid : String) (uid : Nat) :
    ∀ (sessions : List SessionRow) (r : SessionRow),
      sessions.find? (fun r => matchesDiscard r sid uid) = some r →
      ∃ pre post, sessions = pre ++ r :: post ∧
        markAbandonedFirst sessions sid uid =
          pre ++ { r with status := "abandoned" } :: post ∧
        ∀ x ∈ pre, matchesDiscard x sid uid = false := by
  intro sessions
  induction sessions with
  | nil => intro r h; simp at h
  | cons a rest ih =>
    intro r h
    cases hb : matchesDiscard a sid uid with
    | false =>
      simp only [List.find?_cons, hb] at h
      obtain ⟨pre, post, h1, h2, h3⟩ := ih r h
      refine ⟨a :: pre, post, by simp [h1], ?_, ?_⟩
      · simp [markAbandonedFirst, hb, h2]
      · intro x hx
        rcases List.mem_cons.mp hx with rfl | hx
        · exact hb
        · exact h3 x hx
    | true =>
      simp only [List.find?_cons, hb] at h
      simp at h
      subst h
      refine ⟨[], rest, rfl, ?_, by intro x hx; simp at hx⟩
      simp [markAbandonedFirst, hb]

/-! ## Claim theorems (first group) -/

/-- C3: `get_next_assessment_order` falls back to the coin when the
count query fails or no session exists yet; it forces
`questions_first` when the phq9-first ratio exceeds 55 percent, forces
`phq_first` when it is below 45 percent, and uses the coin inside the
45-55 percent deadband; being a total Lean function into the two-value
type `AssessmentOrder`, it never raises and never returns a third
value. -/
theorem get_next_assessment_order_spec (a b : Nat) (coin : Bool) :
    (get_next_assessment_order (.error ()) coin = randomChoice coin) ∧
    (a + b = 0 →
      get_next_assessment_order (.ok (a, b)) coin = randomChoice coin) ∧
    (a + b ≠ 0 → (a : ℚ) / ((a + b : Nat) : ℚ) > 55 / 100 →
      get_next_assessment_order (.ok (a, b)) coin = .questions_first) ∧
    (a + b ≠ 0 → (a : ℚ) / ((a + b : Nat) : ℚ) < 45 / 100 →
      get_next_assessment_order (.ok (a, b)) coin = .phq_first) ∧
    (a + b ≠ 0 → 45 / 100 ≤ (a : ℚ) / ((a + b : Nat) : ℚ) →
      (a : ℚ) / ((a + b : Nat) : ℚ) ≤ 55 / 100 →
      get_next_assessment_order (.ok (a, b)) coin = randomChoice coin) := by
  refine ⟨rfl, ?_, ?_, ?_, ?_⟩
  · intro h0
    simp [get_next_assessment_order, h0]
  · intro h0 hgt
    simp only [get_next_assessment_order]
    rw [if_neg h0, if_pos hgt]
  · intro h0 hlt
    have hngt : ¬((a : ℚ) / ((a + b : Nat) : ℚ) > 55 / 100) := by linarith
    simp only [get_next_assessment_order]
    rw [if_neg h0, if_neg hngt, if_pos hlt]
  · intro h0 hge hle
    have hngt : ¬((a : ℚ) / ((a + b : Nat) : ℚ) > 55 / 100) := by linarith
    have hnlt : ¬((a : ℚ) / ((a + b : Nat) : ℚ) < 45 / 100) := by linarith
    simp only [get_next_assessment_order]
    rw [if_neg h0, if_neg hngt, if_neg hnlt]

/-- Witness for C3: concrete instances of every branch of the balancer
specification. -/
theorem get_next_assessment_order_spec_witness :
    get_next_assessment_order (.ok (4, 1)) true = .questions_first ∧
    get_next_assessment_order (.ok (1, 4)) true = .phq_first ∧
    get_next_assessment_order (.ok (1, 1)) false = randomChoice false ∧
    get_next_assessment_order (.ok (0, 0)) true = randomChoice true := by
  refine ⟨?_, ?_, ?_, ?_⟩
  · exact (get_next_assessment_order_spec 4 1 true).2.2.1 (by norm_num) (by norm_num)
  · exact (get_next_assessment_order_spec 1 4 true).2.2.2.1 (by norm_num) (by norm_num)
  · exact (get_next_assessment_order_spec 1 1 false).2.2.2.2 (by norm_num)
      (by norm_num) (by norm_num)
  · exact (get_next_assessment_order_spec 0 0 true).2.1 (by norm_num)

/-- C4: every question string of an enabled category becomes exactly
one pool entry, in category order (the entries of category c, read off
the pool, are exactly its question list); the unshuffled pool is
ordered by category number then in-category index; with randomization
off the final sequence is the unshuffled pool, and with randomization
on the final sequence is the shuffle - a permutation - of the entire
pool, not a per-category shuffle. -/
theorem build_pool_spec (cfg : PHQPoolConfig)
    (shuffle : List PoolEntry → List PoolEntry) (c : Nat) (qs : List String)
    (hc1 : 1 ≤ c) (hc2 : c ≤ 20)
    (hen : (cfg.category c).exists_flag = "1")
    (hraw : (cfg.category c).questions_data.raw ≠ "")
    (hp : (cfg.category c).questions_data.parsed = .jsonList qs)
    (hnb : ∀ q ∈ qs, pyStrip q ≠ "") :
    ((build_pool cfg).filter (fun e => e.category == c)).map
        (fun e => e.question) = qs ∧
    (build_pool cfg).Pairwise poolLex ∧
    (cfg.randomize_questions = false →
      get_phq_settings_questions cfg shuffle = build_pool cfg) ∧
    (cfg.randomize_questions = true → (∀ l, (shuffle l).Perm l) →
      (get_phq_settings_questions cfg shuffle).Perm (build_pool cfg)) := by
  refine ⟨?_, build_pool_pairwise cfg, ?_, ?_⟩
  · have hmem : c ∈ List.range' 1 20 := by
      rw [List.mem_range']
      exact ⟨c - 1, by omega, by omega⟩
    have hfilter := filter_category_flatMap cfg c (List.range' 1 20)
      (List.nodup_range' 1 20) hmem
    rw [build_pool, hfilter]
    have hq : parse_questions (cfg.category c).questions_data = qs := by
      simp only [parse_questions, hp]
      apply List.filter_eq_self.mpr
      intro q hqs
      simpa using hnb q hqs
    simp only [category_block, if_pos hen, if_neg hraw, hq, List.map_map]
    exact List.enumFrom_map_snd 0 qs
  · intro hr
    simp [get_phq_settings_questions, hr]
  · intro hr hperm
    simp only [get_phq_settings_questions, hr, if_true]
    exact hperm (build_pool cfg)

/-- Witness for C4: the sample configuration with one enabled
three-question category yields exactly three pool entries carrying its
three questions, the pool is in category-then-index order, and with
randomization off the pool is returned unshuffled. -/
theorem build_pool_spec_witness :
    ((build_pool sampleCfg).filter (fun e => e.category == 2)).map
        (fun e => e.question) = ["a", "b", "c"] ∧
    (build_pool sampleCfg).Pairwise poolLex ∧
    get_phq_settings_questions sampleCfg (fun l => l.reverse) =
      build_pool sampleCfg := by
  have h := build_pool_spec sampleCfg (fun l => l.reverse) 2 ["a", "b", "c"]
    (by norm_num) (by norm_num) (by decide) (by decide) (by decide) (by decide)
  exact ⟨h.1, h.2.1, h.2.2.1 rfl⟩

/-- C9: counterexample to the sequential fallback chain.  For the
stored value "," (a JSON decode error), the code parses it as a
comma-separated list, obtains nothing, and skips the category without
ever trying the single-string fallback, while the chain the claim
describes would recover the single question ","; and for a stored
value that decodes to a JSON non-list, the code keeps the whole raw
value as one question instead of trying the comma-separated parse
first. -/
theorem parse_questions_chain_counterexample :
    parse_questions ⟨",", .decodeFailure⟩ = [] ∧
    specFallbackQuestions ⟨",", .decodeFailure⟩ = [","] ∧
    parse_questions ⟨",", .decodeFailure⟩ ≠
      specFallbackQuestions ⟨",", .decodeFailure⟩ ∧
    parse_questions ⟨"\"a, b\"", .jsonOther⟩ = ["\"a, b\""] ∧
    specFallbackQuestions ⟨"\"a, b\"", .jsonOther⟩ = ["\"a", "b\""] := by
  refine ⟨by decide, by decide, by decide, by decide, by decide⟩

/-- C9 amended: the two recovery parses are selected by the failure
mode instead of being tried in sequence: a raw value that raises on
structured parsing is parsed as a comma-separated list (stripped, blank
pieces dropped); a raw value that parses to a non-list becomes one
single-string question kept only when nonblank; a structured list keeps
its nonblank items; and the category is skipped exactly when the
selected parse - not every fallback - yields no question. -/
theorem parse_questions_fallback_by_mode (v : RawQuestionsValue) :
    (v.parsed = .decodeFailure →
      parse_questions v =
        ((pySplitComma v.raw).map pyStrip).filter (fun q => q ≠ "")) ∧
    (v.parsed = .jsonOther →
      parse_questions v = if pyStrip v.raw = "" then [] else [v.raw]) ∧
    (∀ qs, v.parsed = .jsonList qs →
      parse_questions v = qs.filter (fun q => pyStrip q ≠ "")) := by
  refine ⟨?_, ?_, ?_⟩
  · intro h
    simp only [parse_questions, h]
    apply List.filter_eq_self.mpr
    intro q hq
    obtain ⟨hmem, hne⟩ := List.mem_filter.mp hq
    obtain ⟨y, _, rfl⟩ := List.mem_map.mp hmem
    rw [decide_eq_true_eq, pyStrip_idem]
    simpa using hne
  · intro h
    simp only [parse_questions, h]
    by_cases hs : pyStrip v.raw = "" <;> simp [List.filter_cons, hs]
  · intro qs h
    simp only [parse_questions, h]

/-- Witness for C9: one concrete value per failure mode of the
amended fallback behavior. -/
theorem parse_questions_fallback_by_mode_witness :
    parse_questions ⟨" a , b ", .decodeFailure⟩ = ["a", "b"] ∧
    parse_questions ⟨"hello", .jsonOther⟩ = ["hello"] ∧
    parse_questions ⟨"[\"x\", \" \"]", .jsonList ["x", " "]⟩ = ["x"] := by
  refine ⟨?_, ?_, ?_⟩
  · rw [(parse_questions_fallback_by_mode ⟨" a , b ", .decodeFailure⟩).1 rfl]
    decide
  · rw [(parse_questions_fallback_by_mode ⟨"hello", .jsonOther⟩).2.1 rfl]
    decide
  · rw [(parse_questions_fallback_by_mode
      ⟨"[\"x\", \" \"]", .jsonList ["x", " "]⟩).2.2 ["x", " "] rfl]
    decide

/-- C2: folding any sequence of submissions for one fixed
(session, category, index) key through `save_phq_response`, starting
from a session holding at most one row for that key, leaves exactly one
row for the key, whose value, question text and latency are those of
the last submission; and a re-submission over an existing row replaces
the stored timestamp exactly when the client-supplied timestamp is
present and parseable, keeping the prior timestamp otherwise. -/
theorem save_phq_response_upsert (rows : List PHQ9Response) (cat idx : Nat)
    (subs : List PHQSubmission) (s : PHQSubmission)
    (hdup : countKey rows cat idx ≤ 1) :
    countKey (saveAll rows cat (some idx) (subs ++ [s])) cat idx = 1 ∧
    (rowAtKey (saveAll rows cat (some idx) (subs ++ [s])) cat idx).map
        (fun r => (r.response_value, r.question_text, r.response_time_ms)) =
      some (s.response_value, s.question_text, s.response_time_ms) ∧
    (∀ r0 : PHQ9Response, rowAtKey rows cat idx = some r0 →
      (rowAtKey (save_phq_response rows cat s.response_value s.question_text
          s.response_time_ms s.response_timestamp (some idx) s.now)
          cat idx).map (fun r => r.created_at) =
        some (match parseClientTimestamp s.response_timestamp with
          | some n => timestampFromMillis n
          | none => r0.created_at)) := by
  refine ⟨?_, rowAtKey_saveAll_last cat idx subs s rows, ?_⟩
  · have h := countKey_saveAll cat idx (subs ++ [s]) rows (by simp)
    rw [h]
    omega
  · intro r0 h0
    have hs := rowAtKey_save rows cat s.response_value s.question_text
      s.response_time_ms s.response_timestamp (some idx) s.now
    simp only [Option.getD_some] at hs
    rw [hs, h0]
    cases parseClientTimestamp s.response_timestamp <;> simp

/-- Witness for C2: the spec example - submit value 2 then value 1 for
category 3 index 0; afterwards exactly one row exists for the key and
it stores value 1. -/
theorem save_phq_response_upsert_witness :
    countKey (saveAll [] 3 (some 0)
      ([⟨2, "q", none, none, 5⟩] ++ [⟨1, "q", none, none, 6⟩])) 3 0 = 1 ∧
    (rowAtKey (saveAll [] 3 (some 0)
        ([⟨2, "q", none, none, 5⟩] ++ [⟨1, "q", none, none, 6⟩])) 3 0).map
        (fun r => (r.response_value, r.question_text, r.response_time_ms)) =
      some (1, "q", none) :=
  ⟨(save_phq_response_upsert [] 3 0 [⟨2, "q", none, none, 5⟩]
      ⟨1, "q", none, none, 6⟩ (by decide)).1,
   (save_phq_response_upsert [] 3 0 [⟨2, "q", none, none, 5⟩]
      ⟨1, "q", none, none, 6⟩ (by decide)).2.1⟩

/-- C10: a submission whose in-category index is omitted (None) is
stored under index 0 of its category (`question_index_in_category or
0`), so two index-less submissions for the same (session, category)
target the same row: after the second, exactly one row exists at index
0 and it stores the second value. -/
theorem save_phq_response_default_index (rows : List PHQ9Response)
    (cat : Nat) (s1 s2 : PHQSubmission) (hdup : countKey rows cat 0 ≤ 1) :
    (rowAtKey (save_phq_response rows cat s1.response_value s1.question_text
        s1.response_time_ms s1.response_timestamp none s1.now) cat 0).map
        (fun r => r.question_index_in_category) = some 0 ∧
    countKey (save_phq_response (save_phq_response rows cat s1.response_value
        s1.question_text s1.response_time_ms s1.response_timestamp none
        s1.now) cat s2.response_value s2.question_text s2.response_time_ms
        s2.response_timestamp none s2.now) cat 0 = 1 ∧
    (rowAtKey (save_phq_response (save_phq_response rows cat
        s1.response_value s1.question_text s1.response_time_ms
        s1.response_timestamp none s1.now) cat s2.response_value
        s2.question_text s2.response_time_ms s2.response_timestamp none
        s2.now) cat 0).map (fun r => r.response_value) =
      some s2.response_value := by
  have hs1 := rowAtKey_save rows cat s1.response_value s1.question_text
    s1.response_time_ms s1.response_timestamp none s1.now
  have hc1 := countKey_save rows cat s1.response_value s1.question_text
    s1.response_time_ms s1.response_timestamp none s1.now
  simp only [Option.getD_none] at hs1 hc1
  refine ⟨?_, ?_, ?_⟩
  · rw [hs1]
    cases h0 : rowAtKey rows cat 0 with
    | none => simp
    | some r0 =>
      have hp := List.find?_some (by simpa [rowAtKey] using h0)
      simp only [responseKeyMatches, Bool.and_eq_true, beq_iff_eq] at hp
      simp [hp.2]
  · have hc2 := countKey_save (save_phq_response rows cat s1.response_value
      s1.question_text s1.response_time_ms s1.response_timestamp none s1.now)
      cat s2.response_value s2.question_text s2.response_time_ms
      s2.response_timestamp none s2.now
    simp only [Option.getD_none] at hc2
    rw [hc2, hc1]
    omega
  · have hs2 := rowAtKey_save (save_phq_response rows cat s1.response_value
      s1.question_text s1.response_time_ms s1.response_timestamp none s1.now)
      cat s2.response_value s2.question_text s2.response_time_ms
      s2.response_timestamp none s2.now
    simp only [Option.getD_none] at hs2
    rw [hs2]
    cases rowAtKey (save_phq_response rows cat s1.response_value
      s1.question_text s1.response_time_ms s1.response_timestamp none s1.now)
      cat 0 <;> simp

/-- Witness for C10: two index-less submissions for category 2 starting
from an empty session end in one row at index 0 holding the second
value. -/
theorem save_phq_response_default_index_witness :
    countKey (save_phq_response
      (save_phq_response [] 2 3 "qa" none none none 7)
      2 1 "qb" none none none 8) 2 0 = 1 ∧
    (rowAtKey (save_phq_response
        (save_phq_response [] 2 3 "qa" none none none 7)
        2 1 "qb" none none none 8) 2 0).map
        (fun r => r.response_value) = some 1 :=
  ⟨(save_phq_response_default_index [] 2 ⟨3, "qa", none, none, 7⟩
      ⟨1, "qb", none, none, 8⟩ (by decide)).2.1,
   (save_phq_response_default_index [] 2 ⟨3, "qa", none, none, 7⟩
      ⟨1, "qb", none, none, 8⟩ (by decide)).2.2⟩

/-- C6: after n completed exchanges, the message list rebuilt for a new
completion request is exactly the stored system prompt followed by all
prior turns in stored order - one system entry, then the 2n alternating
subject/agent entries, then the new subject turn appended last - so
every downstream request replays the entire stored exchange log and the
system prompt appears exactly once. -/
theorem generate_streaming_response_full_context (sp um : String)
    (exs : List (String × String)) (hsp : sp ≠ "") :
    (applyExchanges (create_chat_session sp) exs).exchange_count =
      exs.length ∧
    generate_streaming_response_messages
        (applyExchanges (create_chat_session sp) exs) um =
      .ok (LCMessage.systemMessage sp ::
        (exs.flatMap (fun e => [LCMessage.humanMessage e.1,
          LCMessage.aiMessage e.2]) ++ [LCMessage.humanMessage um])) ∧
    (LCMessage.systemMessage sp ::
        (exs.flatMap (fun e => [LCMessage.humanMessage e.1,
          LCMessage.aiMessage e.2]) ++ [LCMessage.humanMessage um])).length =
      1 + 2 * exs.length + 1 ∧
    (LCMessage.systemMessage sp ::
        (exs.flatMap (fun e => [LCMessage.humanMessage e.1,
          LCMessage.aiMessage e.2]) ++ [LCMessage.humanMessage um])).countP
        isSystemMessage = 1 := by
  obtain ⟨hsys, hhist, hcount⟩ :=
    applyExchanges_spec exs (create_chat_session sp)
  refine ⟨?_, ?_, ?_, ?_⟩
  · rw [hcount]
    simp [create_chat_session]
  · rw [generate_streaming_response_messages, if_neg (by rw [hsys]; exact hsp)]
    rw [hsys, hhist]
    rw [show (create_chat_session sp).message_history =
      [{ type := .system, content := sp }] from rfl]
    rw [List.filterMap_append, filterMap_exchange_pairs]
    rfl
  · rw [List.length_cons, List.length_append, length_exchange_pairs]
    simp
    omega
  · rw [List.countP_cons, List.countP_append, countP_system_exchange_pairs]
    rfl

/-- Witness for C6: a two-exchange conversation rebuilds one system
entry, four history entries and the new turn, in order. -/
theorem generate_streaming_response_full_context_witness :
    generate_streaming_response_messages
        (applyExchanges (create_chat_session "base prompt")
          [("hi", "hello"), ("how", "fine")]) "next" =
      .ok [LCMessage.systemMessage "base prompt",
        LCMessage.humanMessage "hi", LCMessage.aiMessage "hello",
        LCMessage.humanMessage "how", LCMessage.aiMessage "fine",
        LCMessage.humanMessage "next"] := by
  have h := (generate_streaming_response_full_context "base prompt" "next"
    [("hi", "hello"), ("how", "fine")] (by decide)).2.1
  rw [h]
  rfl

/-- C5 (spec-modelled continuation policy over the source-tracked
exchange count): after n completed exchanges the session's count is n,
and continue_policy denies continuation exactly when n has reached the
configured cap - below the cap continuation is unconditional with no
closing message, at or beyond the cap a closing message is returned. -/
theorem continue_policy_cap (sp closing : String)
    (exs : List (String × String)) (cap : Nat) :
    ((continue_policy
        (applyExchanges (create_chat_session sp) exs).exchange_count
        cap closing).can_continue = false ↔ cap ≤ exs.length) ∧
    (exs.length < cap →
      continue_policy
          (applyExchanges (create_chat_session sp) exs).exchange_count
          cap closing =
        { can_continue := true, closing_message := none }) ∧
    (cap ≤ exs.length →
      (continue_policy
          (applyExchanges (create_chat_session sp) exs).exchange_count
          cap closing).closing_message = some closing) := by
  have hcount : (applyExchanges (create_chat_session sp) exs).exchange_count =
      exs.length := by
    rw [(applyExchanges_spec exs (create_chat_session sp)).2.2]
    simp [create_chat_session]
  rw [hcount]
  by_cases h : cap ≤ exs.length
  · refine ⟨⟨fun _ => h, fun _ => ?_⟩, fun hlt => absurd h (by omega), fun _ => ?_⟩
    · simp [continue_policy, h]
    · simp [continue_policy, h]
  · refine ⟨⟨fun hc => ?_, fun hc => absurd hc h⟩, fun _ => ?_, fun hc => absurd hc h⟩
    · exfalso
      have : ¬ exs.length ≥ cap := by omega
      simp [continue_policy, this] at hc
    · have : ¬ exs.length ≥ cap := by omega
      simp [continue_policy, this]

/-- Witness for C5: with a cap of 2 exchanges, continuation is denied
after the second exchange and granted after the first. -/
theorem continue_policy_cap_witness :
    (continue_policy
        (applyExchanges (create_chat_session "s")
          [("a", "b"), ("c", "d")]).exchange_count 2 "bye").can_continue =
      false ∧
    continue_policy
        (applyExchanges (create_chat_session "s") [("a", "b")]).exchange_count
        2 "bye" = { can_continue := true, closing_message := none } :=
  ⟨(continue_policy_cap "s" "bye" [("a", "b"), ("c", "d")] 2).1.mpr
      (by norm_num),
   (continue_policy_cap "s" "bye" [("a", "b")] 2).2.1 (by norm_num)⟩

/-- C1: at a session whose saved responses sum to 10, the results dict
returned by `calculate_phq_score` carries severity "moderate" as the
spec demands, but the severity actually persisted on the Assessment row
is "mild", because the internal call to
`AssessmentService.complete_phq9_assessment` overwrites the row with
its own divergent severity ladder before the commit. -/
theorem calculate_phq_score_persisted_severity_bug :
    totalScore
      [⟨1, 0, "q1", 3, none, 0⟩, ⟨2, 0, "q2", 3, none, 0⟩,
       ⟨3, 0, "q3", 3, none, 0⟩, ⟨4, 0, "q4", 1, none, 0⟩] = 10 ∧
    (calculate_phq_score
      [⟨1, 0, "q1", 3, none, 0⟩, ⟨2, 0, "q2", 3, none, 0⟩,
       ⟨3, 0, "q3", 3, none, 0⟩, ⟨4, 0, "q4", 1, none, 0⟩]).returned_severity
      = "moderate" ∧
    (calculate_phq_score
      [⟨1, 0, "q1", 3, none, 0⟩, ⟨2, 0, "q2", 3, none, 0⟩,
       ⟨3, 0, "q3", 3, none, 0⟩, ⟨4, 0, "q4", 1, none, 0⟩]).persisted_severity
      = "mild" := by
  refine ⟨rfl, rfl, rfl⟩

/-- C7: `save_video` whose file write fails raises, after rolling the
database session back, so no record is created (`.error` hands the
caller back the stores unchanged); and on a successful write the
returned stores hold exactly one new record, created after the write,
whose path is the deterministically computed storage location that was
just written - a record can never point at a file that was never
written. -/
theorem save_video_write_before_record (st : MediaStore)
    (assessment : Option Nat) (session_id : String) (user_id : Nat)
    (assessment_type question_identifier : String) (video_size : Nat)
    (date_path timestamp_str : String) :
    (save_video st assessment session_id user_id assessment_type
        question_identifier video_size date_path timestamp_str false =
      .error ()) ∧
    (∀ aid, assessment = some aid → video_size ≤ maxFileSizeBytes →
      save_video st assessment session_id user_id assessment_type
          question_identifier video_size date_path timestamp_str true =
        .ok { files := (get_storage_path user_id session_id assessment_type
                date_path ++ "/video_" ++ timestamp_str ++ ".webm") :: st.files
              records :=
                { assessment_id := aid
                  assessment_type := assessment_type
                  question_identifier := question_identifier
                  media_type := "video"
                  file_path := get_storage_path user_id session_id
                    assessment_type date_path ++ "/video_" ++ timestamp_str ++
                    ".webm"
                  file_size := video_size } :: st.records }) ∧
    (∀ st2, save_video st assessment session_id user_id assessment_type
        question_identifier video_size date_path timestamp_str true =
          .ok st2 →
      ∃ rec, st2.records = rec :: st.records ∧ rec.file_path ∈ st2.files) := by
  refine ⟨?_, ?_, ?_⟩
  · by_cases hsz : video_size > maxFileSizeBytes
    · simp [save_video, hsz]
    · cases assessment <;> simp [save_video, hsz]
  · intro aid haid hle
    subst haid
    have hsz : ¬ video_size > maxFileSizeBytes := by omega
    simp [save_video, hsz]
  · intro st2 h
    by_cases hsz : video_size > maxFileSizeBytes
    · simp [save_video, hsz] at h
    · cases hassess : assessment with
      | none =>
        rw [hassess] at h
        simp [save_video, hsz] at h
      | some aid =>
        rw [hassess] at h
        simp only [save_video, hsz, if_false] at h
        simp at h
        refine ⟨{ assessment_id := aid
                  assessment_type := assessment_type
                  question_identifier := question_identifier
                  media_type := "video"
                  file_path := get_storage_path user_id session_id
                    assessment_type date_path ++ "/video_" ++ timestamp_str ++
                    ".webm"
                  file_size := video_size }, ?_, ?_⟩
        · rw [← h]
        · rw [← h]
          exact List.mem_cons_self _ _

/-- Witness for C7: a concrete successful save creates exactly the one
record pointing at the path just written. -/
theorem save_video_write_before_record_witness :
    save_video { files := [], records := [] } (some 7) "sess" 1 "phq9"
        "q1" 1000 "2025/01/01" "t1" true =
      .ok { files := ["./uploads/2025/01/01/user_1/phq9/session_sess/video_t1.webm"]
            records := [{ assessment_id := 7
                          assessment_type := "phq9"
                          question_identifier := "q1"
                          media_type := "video"
                          file_path := "./uploads/2025/01/01/user_1/phq9/session_sess/video_t1.webm"
                          file_size := 1000 }] } := by
  have h := (save_video_write_before_record { files := [], records := [] }
    (some 7) "sess" 1 "phq9" "q1" 1000 "2025/01/01" "t1").2.1 7 rfl
    (by norm_num [maxFileSizeBytes])
  rw [h]
  rfl

/-- C8: counterexample.  Posting `start_fresh_assessment` with no
discard_session_id (the form field is optional) creates the new session
while the subject's existing in-progress session stays in progress:
afterwards the subject has two non-terminal sessions and the dangling
one was never marked abandoned, so session creation does not first
abandon every dangling non-completed session. -/
theorem start_fresh_assessment_leaves_dangling :
    nonTerminalCount
      (start_fresh_assessment [⟨"s1", 1, "in_progress"⟩] 1 none "s2") 1 = 2 ∧
    ⟨"s1", 1, "in_progress"⟩ ∈
      start_fresh_assessment [⟨"s1", 1, "in_progress"⟩] 1 none "s2" := by
  refine ⟨by decide, by decide⟩

/-- C8 amended: `start_assessment` creates a session only when the
subject has no in-progress session (otherwise the resume modal is shown
and nothing is created), and `start_fresh_assessment` abandons (marks,
never deletes) at most the single in-progress session named by the
client-supplied discard id before unconditionally creating the new
in-progress session: with no discard id, or a discard id matching no
in-progress row of this subject, every existing row is left untouched,
and with a matching discard id exactly the first matching row is marked
abandoned while every other row is untouched. -/
theorem start_fresh_assessment_behavior (sessions : List SessionRow)
    (uid : Nat) (sid new_sid : String) (hsid : sid ≠ "") :
    (sessions.any (fun s => s.user_id == uid && s.status == "in_progress") =
        false →
      start_assessment sessions uid new_sid =
        (sessions ++ [⟨new_sid, uid, "in_progress"⟩], true)) ∧
    (sessions.any (fun s => s.user_id == uid && s.status == "in_progress") =
        true →
      start_assessment sessions uid new_sid = (sessions, false)) ∧
    (start_fresh_assessment sessions uid none new_sid =
      sessions ++ [⟨new_sid, uid, "in_progress"⟩]) ∧
    (sessions.find? (fun r => matchesDiscard r sid uid) = none →
      start_fresh_assessment sessions uid (some sid) new_sid =
        sessions ++ [⟨new_sid, uid, "in_progress"⟩]) ∧
    (∀ r, sessions.find? (fun r => matchesDiscard r sid uid) = some r →
      ∃ pre post, sessions = pre ++ r :: post ∧
        start_fresh_assessment sessions uid (some sid) new_sid =
          (pre ++ { r with status := "abandoned" } :: post) ++
            [⟨new_sid, uid, "in_progress"⟩] ∧
        ∀ x ∈ pre, matchesDiscard x sid uid = false) := by
  refine ⟨?_, ?_, rfl, ?_, ?_⟩
  · intro h
    simp [start_assessment, h]
  · intro h
    simp [start_assessment, h]
  · intro h
    simp only [start_fresh_assessment, if_neg hsid,
      markAbandonedFirst_of_find?_none sid uid sessions h]
  · intro r h
    obtain ⟨pre, post, h1, h2, h3⟩ :=
      markAbandonedFirst_of_find?_some sid uid sessions r h
    exact ⟨pre, post, h1,
      by simp only [start_fresh_assessment, if_neg hsid, h2], h3⟩

/-- Witness for C8 amended: with no matching discard id the existing
rows stay untouched; with a matching one, exactly that session is
marked abandoned before the new session is appended. -/
theorem start_fresh_assessment_behavior_witness :
    start_fresh_assessment [⟨"s1", 1, "in_progress"⟩] 1 (some "zz") "s2" =
      [⟨"s1", 1, "in_progress"⟩, ⟨"s2", 1, "in_progress"⟩] ∧
    (∃ pre post,
      [(⟨"s1", 1, "in_progress"⟩ : SessionRow)] =
        pre ++ ⟨"s1", 1, "in_progress"⟩ :: post ∧
      start_fresh_assessment [⟨"s1", 1, "in_progress"⟩] 1 (some "s1") "s2" =
        (pre ++ ⟨"s1", 1, "abandoned"⟩ :: post) ++
          [⟨"s2", 1, "in_progress"⟩] ∧
      ∀ x ∈ pre, matchesDiscard x "s1" 1 = false) ∧
    start_assessment [⟨"s1", 1, "in_progress"⟩] 1 "s3" =
      ([⟨"s1", 1, "in_progress"⟩], false) :=
  ⟨(start_fresh_assessment_behavior [⟨"s1", 1, "in_progress"⟩] 1 "zz" "s2"
      (by decide)).2.2.2.1 (by decide),
   (start_fresh_assessment_behavior [⟨"s1", 1, "in_progress"⟩] 1 "s1" "s2"
      (by decide)).2.2.2.2 ⟨"s1", 1, "in_progress"⟩ (by decide),
   (start_fresh_assessment_behavior [⟨"s1", 1, "in_progress"⟩] 1 "s1" "s3"
      (by decide)).2.1 (by decide)⟩

end MentalHealth
